import Mathlib

/-!
Verification of the `mdnet` static-site generator (`mdnet/mdnet.py`).

The development shallowly embeds the `generate_site` pipeline:
front-matter metadata is an association list of `Value`s, the external
collaborators (front-matter parser, Markdown converter, Jinja template
engine, filesystem) are modelled as pure data: a rendered page is
recorded as the pair of the template used and the bindings passed to it,
and a run returns the list of file writes it performed together with an
optional abort error.
-/

namespace Mdnet

/-- A calendar date, as produced by Python's `datetime.date`.
Comparison is lexicographic on (year, month, day). -/
structure PDate where
  year : Nat
  month : Nat
  day : Nat
  deriving DecidableEq, Repr

/-- Strict order on dates: lexicographic on (year, month, day),
matching Python `date` comparison. -/
def PDate.lt (a b : PDate) : Prop :=
  a.year < b.year ∨ (a.year = b.year ∧
    (a.month < b.month ∨ (a.month = b.month ∧ a.day < b.day)))

/-- Non-strict order on dates. -/
def PDate.le (a b : PDate) : Prop :=
  a.year < b.year ∨ (a.year = b.year ∧
    (a.month < b.month ∨ (a.month = b.month ∧ a.day ≤ b.day)))

instance (a b : PDate) : Decidable (PDate.lt a b) := by
  unfold PDate.lt; infer_instance

instance (a b : PDate) : Decidable (PDate.le a b) := by
  unfold PDate.le; infer_instance

/-- The sentinel minimum date `date(1900, 1, 1)` used for absent or
unrecognized front-matter dates (mdnet.py line 40). -/
def PDate.sentinel : PDate := ⟨1900, 1, 1⟩

/-- A front-matter metadata value, covering the shapes the generator
inspects: YAML strings, native dates (YAML parses unquoted
`YYYY-MM-DD` into `datetime.date`), lists of strings (tag lists), and
a catch-all for every other shape (null, numbers, nested maps, ...). -/
inductive Value where
  | vstr : String → Value
  | vdate : PDate → Value
  | vlist : List String → Value
  | vother : Value
  deriving DecidableEq, Repr

/-- Metadata mapping produced by `frontmatter.load`: keys are unique in
a Python dict; an association list with first-match lookup models it. -/
abbrev Meta := List (String × Value)

/-- `post.metadata.get(k, default)` without the default: `none` when the
key is absent. -/
def mget (m : Meta) (k : String) : Option Value :=
  match m with
  | [] => none
  | (k', v) :: rest => if k' = k then some v else mget rest k

/-- Leap-year rule of the Gregorian calendar (as in Python `calendar`/
`datetime`). -/
def isLeap (y : Nat) : Bool :=
  y % 4 == 0 && (y % 100 != 0 || y % 400 == 0)

/-- Number of days in a month, Gregorian calendar. -/
def daysInMonth (y m : Nat) : Nat :=
  if m = 2 then (if isLeap y then 29 else 28)
  else if m = 4 ∨ m = 6 ∨ m = 9 ∨ m = 11 then 30
  else 31

/-- Numeric value of a decimal digit character, `none` otherwise. -/
def digitVal (c : Char) : Option Nat :=
  if '0' ≤ c ∧ c ≤ '9' then some (c.toNat - '0'.toNat) else none

/-- `datetime.date.fromisoformat` on the canonical `YYYY-MM-DD` form:
fixed-width digits, dashes at positions 4 and 7, month and day ranges
validated against the calendar, year within Python's 1..9999. Returns
`none` where Python raises `ValueError`. -/
def fromisoformat (s : String) : Option PDate :=
  match s.data with
  | [y1, y2, y3, y4, h1, m1, m2, h2, d1, d2] =>
    if h1 = '-' ∧ h2 = '-' then
      match digitVal y1, digitVal y2, digitVal y3, digitVal y4,
            digitVal m1, digitVal m2, digitVal d1, digitVal d2 with
      | some a, some b, some c, some d, some e, some f, some g, some h =>
        let y := ((a * 10 + b) * 10 + c) * 10 + d
        let m := e * 10 + f
        let dy := g * 10 + h
        if 1 ≤ y ∧ 1 ≤ m ∧ m ≤ 12 ∧ 1 ≤ dy ∧ dy ≤ daysInMonth y m then
          some ⟨y, m, dy⟩
        else none
      | _, _, _, _, _, _, _, _ => none
    else none
  | _ => none

/-- Errors that abort a run. `malformedDate` stands for the
`ValueError` of `date.fromisoformat` (line 36); `missingTemplate` for
the `AttributeError`/`TypeError` raised when `render_template` is
called with `None` as the template path (lines 73 and 79). -/
inductive GenError where
  | malformedDate
  | missingTemplate
  deriving DecidableEq, Repr

/-- Date normalization, mdnet.py lines 33-40: a string is parsed with
`date.fromisoformat` (failure aborts), a native date is kept as-is,
anything else (including an absent key) becomes the sentinel
`date(1900, 1, 1)`. -/
def normalizeDate (raw : Option Value) : Except GenError PDate :=
  match raw with
  | some (Value.vstr s) =>
    match fromisoformat s with
    | some d => Except.ok d
    | none => Except.error GenError.malformedDate
  | some (Value.vdate d) => Except.ok d
  | _ => Except.ok PDate.sentinel

/-- `post.metadata.get('title', md_file.stem)`, mdnet.py line 32.
The value is returned whenever the key is present — also when it is the
empty string. (A present non-string title makes the source raise
`TypeError` at `title + ".html"`; the claims only exercise string or
absent titles, and that branch falls back to the stem here.) -/
def getTitle (m : Meta) (stem : String) : String :=
  match mget m "title" with
  | some (Value.vstr s) => s
  | _ => stem

/-- `post.metadata.get('tldr', "")`, mdnet.py line 42. -/
def getTldr (m : Meta) : String :=
  match mget m "tldr" with
  | some (Value.vstr s) => s
  | _ => ""

/-- `post.metadata.get('tags', [])`, mdnet.py line 43. -/
def getTags (m : Meta) : List String :=
  match mget m "tags" with
  | some (Value.vlist l) => l
  | _ => []

/-- The `post_data` dict built at mdnet.py lines 49-55. -/
structure PostData where
  title : String
  date : PDate
  tldr : String
  file : String
  tag_file : String
  deriving DecidableEq, Repr

/-- One step of the stable descending sort: insert `x` (which precedes
every element of the list in discovery order) before the first element
whose date is `≤ x.date`. -/
def insertPost (x : PostData) : List PostData → List PostData
  | [] => [x]
  | y :: ys =>
    if PDate.le y.date x.date then x :: y :: ys else y :: insertPost x ys

/-- `posts.sort(key=lambda post: post['date'], reverse=True)`,
mdnet.py line 64: Python's `list.sort` is stable, and with
`reverse=True` ties keep their original relative order. The stable
insertion sort below produces exactly that order: descending by date,
discovery order preserved among equal dates. -/
def sortPosts : List PostData → List PostData
  | [] => []
  | x :: xs => insertPost x (sortPosts xs)

/-- The tag dictionary `tags_dict`: a Python dict maps tag names to
lists of `post_data`; insertion order of keys is preserved, so an
association list models it. -/
abbrev TagsDict := List (String × List PostData)

/-- `tags_dict[tag].append(post_data)` with bucket creation on first
use (mdnet.py lines 59-61): a new key goes to the end of the dict's
iteration order, an existing bucket is appended to. -/
def addTag (td : TagsDict) (t : String) (p : PostData) : TagsDict :=
  match td with
  | [] => [(t, [p])]
  | (k, ps) :: rest =>
    if k = t then (k, ps ++ [p]) :: rest else (k, ps) :: addTag rest t p

/-- `for tag in post_tags: ...` (mdnet.py lines 58-61). -/
def addTags (td : TagsDict) (ts : List String) (p : PostData) : TagsDict :=
  match ts with
  | [] => td
  | t :: rest => addTags (addTag td t p) rest p

/-- Lookup of a tag's bucket in `tags_dict`. -/
def bucket? (td : TagsDict) (t : String) : Option (List PostData) :=
  match td with
  | [] => none
  | (k, ps) :: rest => if k = t then some ps else bucket? rest t

/-- Output file locations under `output_dir`, mirroring the paths the
generator writes to. -/
inductive OutPath where
  | postsFile : String → OutPath
  | tagsFile : String → OutPath
  | indexFile : OutPath
  | allTagsFile : OutPath
  | allPostsFile : OutPath
  deriving DecidableEq, Repr

/-- The `date=date` keyword argument of the per-post render (mdnet.py
line 46) passes the imported `datetime.date` *class*, not the
normalized `date_obj`; `dateClass` records that object. -/
inductive DateArg where
  | dateClass : DateArg
  | dateValue : PDate → DateArg
  deriving DecidableEq, Repr

/-- The keyword arguments passed to `render_template` at each of the
five render sites. -/
inductive Bindings where
  | postPage : String → DateArg → String → Bindings
  | tagPage : List PostData → String → Bindings
  | allTagsPage : TagsDict → Bindings
  | indexPage : List PostData → TagsDict → Bindings
  | allPostsPage : List PostData → Bindings
  deriving DecidableEq, Repr

/-- A filesystem write performed by the run: the destination path, the
template the content was rendered from (the template engine is a pure
collaborator, so the rendered text is determined by template and
bindings), and the bindings passed. -/
structure Write where
  path : OutPath
  template : String
  bindings : Bindings
  deriving DecidableEq

/-- One entry of `Path(input_dir).iterdir()` together with what
`frontmatter.load` returns for it: the path's stem and suffix, the
metadata mapping and the body text. -/
structure Doc where
  stem : String
  suffix : String
  metadata : Meta
  content : String

/-- State of the collection loop (mdnet.py lines 25-61): the post
pages written so far, the accumulated `posts` and `tags_dict`, and the
error that aborted the loop, if any. -/
structure CollectState where
  writes : List Write
  posts : List PostData
  tagsDict : TagsDict
  error : Option GenError

/-- The collection loop, mdnet.py lines 27-61. `tpl` is the post
template path, `md2html` the Markdown converter (an external pure
collaborator). Non-`.md` entries are skipped; a malformed date string
aborts the loop before this document's page is written, keeping the
writes already performed. -/
def collect (tpl : String) (md2html : String → String) :
    List Doc → List Write → List PostData → TagsDict → CollectState
  | [], ws, ps, td => ⟨ws, ps, td, none⟩
  | doc :: rest, ws, ps, td =>
    if doc.suffix = ".md" then
      let title := getTitle doc.metadata doc.stem
      match normalizeDate (mget doc.metadata "date") with
      | Except.error e => ⟨ws, ps, td, some e⟩
      | Except.ok dateObj =>
        let tldr := getTldr doc.metadata
        let postTags := getTags doc.metadata
        let htmlName := title ++ ".html"
        let w : Write :=
          ⟨OutPath.postsFile htmlName, tpl,
            Bindings.postPage title DateArg.dateClass (md2html doc.content)⟩
        let pd : PostData :=
          ⟨title, dateObj, tldr, "posts/" ++ htmlName, "../posts/" ++ htmlName⟩
        collect tpl md2html rest (ws ++ [w]) (ps ++ [pd]) (addTags td postTags pd)
    else collect tpl md2html rest ws ps td

/-- Configuration of a run: the `generate_site` parameters
(mdnet.py line 21). `numPosts` is a Python `int` and may be negative. -/
structure Config where
  postTemplate : String
  indexTemplate : String
  tagTemplate : Option String
  allTagsTemplate : Option String
  allPostsTemplate : Option String
  numPosts : Int

/-- Python's `l[:n]`: for a non-negative bound, the first `n` elements;
a negative bound counts from the end (`max 0 (len + n)` elements). -/
def pySlice (n : Int) (l : List PostData) : List PostData :=
  if 0 ≤ n then l.take n.toNat
  else l.take (max 0 ((l.length : Int) + n)).toNat

/-- Result of a run: the writes performed, in order, and the error that
aborted the run, if any (already-written files stay on disk). -/
structure RunResult where
  writes : List Write
  error : Option GenError

/-- Steps after the optional tag pages, mdnet.py lines 76-80: the index
page is written unconditionally, then the all-posts render is attempted
with a possibly-absent template path. -/
def finishRun (cfg : Config) (ws : List Write) (sorted : List PostData)
    (td : TagsDict) : RunResult :=
  match cfg.allPostsTemplate with
  | some apt =>
    ⟨ws ++
      [⟨OutPath.indexFile, cfg.indexTemplate,
        Bindings.indexPage (pySlice cfg.numPosts sorted) td⟩,
       ⟨OutPath.allPostsFile, apt, Bindings.allPostsPage sorted⟩], none⟩
  | none =>
    ⟨ws ++
      [⟨OutPath.indexFile, cfg.indexTemplate,
        Bindings.indexPage (pySlice cfg.numPosts sorted) td⟩],
     some GenError.missingTemplate⟩

/-- The per-tag pages written at mdnet.py lines 69-71, one per key of
`tags_dict`, in the dict's insertion order. -/
def tagPageWrites (tt : String) (td : TagsDict) : List Write :=
  td.map fun kv =>
    (⟨OutPath.tagsFile (kv.1 ++ ".html"), tt, Bindings.tagPage kv.2 kv.1⟩ : Write)

/-- `generate_site`, mdnet.py lines 21-80: collect the posts, sort by
date descending, then (when a tag template is configured) write the
per-tag pages followed by the all-tags page — whose render crashes when
no all-tags template is configured — then the index page, then the
all-posts page, whose render crashes when no all-posts template is
configured. -/
def generateSite (cfg : Config) (md2html : String → String)
    (docs : List Doc) : RunResult :=
  match collect cfg.postTemplate md2html docs [] [] [] with
  | ⟨ws, _, _, some e⟩ => ⟨ws, some e⟩
  | ⟨ws, ps, td, none⟩ =>
    match cfg.tagTemplate with
    | some tt =>
      match cfg.allTagsTemplate with
      | some att =>
        finishRun cfg
          (ws ++ tagPageWrites tt td ++
            [⟨OutPath.allTagsFile, att, Bindings.allTagsPage td⟩])
          (sortPosts ps) td
      | none => ⟨ws ++ tagPageWrites tt td, some GenError.missingTemplate⟩
    | none => finishRun cfg ws (sortPosts ps) td

/-- The descending-date relation the sorted post list satisfies:
an earlier element's date is at least a later element's date. -/
def dateDesc (a b : PostData) : Prop := PDate.le b.date a.date

/-- The documents the loop processes: the directory entries with the
`.md` suffix (mdnet.py line 28). -/
def mdDocs (docs : List Doc) : List Doc :=
  docs.filter (fun d => d.suffix == ".md")

/-- The `post_data` record built for one document, restating mdnet.py
lines 32-55 per document; in an error-free run only the `ok` branch of
the date match is reached. -/
def mkPostData (d : Doc) : PostData :=
  let title := getTitle d.metadata d.stem
  ⟨title,
    match normalizeDate (mget d.metadata "date") with
    | Except.ok x => x
    | Except.error _ => PDate.sentinel,
    getTldr d.metadata,
    "posts/" ++ (title ++ ".html"),
    "../posts/" ++ (title ++ ".html")⟩

/-- One bucket entry per occurrence of tag `t` in the tag list `ts`. -/
def occOf (t : String) (ts : List String) (p : PostData) : List PostData :=
  (ts.filter (fun x => x == t)).map (fun _ => p)

/-- Everything tag `t`'s bucket receives over a run, posts in
discovery order. -/
def tagOcc (t : String) (docs : List Doc) : List PostData :=
  (mdDocs docs).flatMap (fun d => occOf t (getTags d.metadata) (mkPostData d))

/-- A tag's bucket, the empty list when the key is absent. -/
def bucketL (td : TagsDict) (t : String) : List PostData :=
  (bucket? td t).getD []

theorem PDate.le_refl (a : PDate) : PDate.le a a := by
  unfold PDate.le; omega

theorem PDate.le_total (a b : PDate) : PDate.le a b ∨ PDate.le b a := by
  unfold PDate.le; omega

theorem PDate.le_trans {a b c : PDate} (h1 : PDate.le a b) (h2 : PDate.le b c) :
    PDate.le a c := by
  unfold PDate.le at *; omega

theorem PDate.lt_of_not_le {a b : PDate} (h : ¬ PDate.le a b) : PDate.lt b a := by
  unfold PDate.le at h; unfold PDate.lt; omega

theorem PDate.le_of_lt {a b : PDate} (h : PDate.lt a b) : PDate.le a b := by
  unfold PDate.lt at h; unfold PDate.le; omega

theorem PDate.not_lt_of_le {a b : PDate} (h : PDate.le a b) : ¬ PDate.lt b a := by
  unfold PDate.le at h; unfold PDate.lt; omega

theorem insertPost_perm (x : PostData) (l : List PostData) :
    (insertPost x l).Perm (x :: l) := by
  induction l with
  | nil => exact List.Perm.refl _
  | cons y ys ih =>
    unfold insertPost
    by_cases h : PDate.le y.date x.date
    · simp [h]
    · simp only [h, if_false]
      exact (List.Perm.cons y ih).trans (List.Perm.swap x y ys)

theorem mem_insertPost {b x : PostData} {l : List PostData} :
    b ∈ insertPost x l ↔ b = x ∨ b ∈ l := by
  rw [(insertPost_perm x l).mem_iff]
  simp

theorem insertPost_pairwise {x : PostData} {l : List PostData}
    (h : l.Pairwise dateDesc) : (insertPost x l).Pairwise dateDesc := by
  induction l with
  | nil => simp [insertPost, List.pairwise_cons]
  | cons y ys ih =>
    rw [List.pairwise_cons] at h
    unfold insertPost
    by_cases hle : PDate.le y.date x.date
    · simp only [hle, if_true]
      rw [List.pairwise_cons]
      refine ⟨?_, List.pairwise_cons.mpr h⟩
      intro b hb
      rcases List.mem_cons.mp hb with hb | hb
      · subst hb; exact hle
      · exact PDate.le_trans (h.1 b hb) hle
    · simp only [hle, if_false]
      rw [List.pairwise_cons]
      refine ⟨?_, ih h.2⟩
      intro b hb
      rcases mem_insertPost.mp hb with hb | hb
      · subst hb
        exact PDate.le_of_lt (PDate.lt_of_not_le hle)
      · exact h.1 b hb

theorem sortPosts_perm (l : List PostData) : (sortPosts l).Perm l := by
  induction l with
  | nil => exact List.Perm.refl _
  | cons x xs ih =>
    exact (insertPost_perm x (sortPosts xs)).trans (List.Perm.cons x ih)

theorem sortPosts_pairwise (l : List PostData) :
    (sortPosts l).Pairwise dateDesc := by
  induction l with
  | nil => simp [sortPosts]
  | cons x xs ih => exact insertPost_pairwise ih

theorem filter_insertPost (x : PostData) (l : List PostData) (d : PDate) :
    (insertPost x l).filter (fun p => decide (p.date = d)) =
      if x.date = d then x :: l.filter (fun p => decide (p.date = d))
      else l.filter (fun p => decide (p.date = d)) := by
  induction l with
  | nil => by_cases h : x.date = d <;> simp [insertPost, h]
  | cons y ys ih =>
    unfold insertPost
    by_cases hle : PDate.le y.date x.date
    · rw [if_pos hle]
      by_cases h : x.date = d <;> simp [h, List.filter_cons]
    · rw [if_neg hle]
      have hxy : PDate.lt x.date y.date := PDate.lt_of_not_le hle
      by_cases h : x.date = d
      · have hyd : ¬ (y.date = d) := by
          intro hyd
          rw [h, hyd] at hxy
          exact PDate.not_lt_of_le (PDate.le_refl d) hxy
        simp [h, hyd, List.filter_cons, ih]
      · by_cases h2 : y.date = d <;> simp [h, h2, List.filter_cons, ih]

theorem filter_sortPosts (l : List PostData) (d : PDate) :
    (sortPosts l).filter (fun p => decide (p.date = d)) =
      l.filter (fun p => decide (p.date = d)) := by
  induction l with
  | nil => rfl
  | cons x xs ih =>
    show (insertPost x (sortPosts xs)).filter _ = _
    rw [filter_insertPost]
    by_cases h : x.date = d <;> simp [h, List.filter_cons, ih]

/-- Splitting the collection loop at any point: if the first part
aborts, the rest is never processed; otherwise the second part
continues from the accumulated state. -/
theorem collect_append (tpl : String) (md2html : String → String) :
    ∀ l1 l2 ws ps td,
      collect tpl md2html (l1 ++ l2) ws ps td =
        match (collect tpl md2html l1 ws ps td).error with
        | some _ => collect tpl md2html l1 ws ps td
        | none =>
          collect tpl md2html l2 (collect tpl md2html l1 ws ps td).writes
            (collect tpl md2html l1 ws ps td).posts
            (collect tpl md2html l1 ws ps td).tagsDict := by
  intro l1
  induction l1 with
  | nil => intro l2 ws ps td; simp [collect]
  | cons doc l1 ih =>
    intro l2 ws ps td
    by_cases hmd : doc.suffix = ".md"
    · simp only [List.cons_append, collect, hmd, if_true]
      cases hdate : normalizeDate (mget doc.metadata "date") with
      | error e => simp
      | ok dateObj => simp only []; exact ih l2 _ _ _
    · simp only [List.cons_append, collect, hmd, if_false]
      exact ih l2 ws ps td

/-- The `writes` and `posts` accumulators only collect a prefix: the
result of the loop is the accumulators followed by what the loop
produces from empty accumulators. -/
theorem collect_acc (tpl : String) (md2html : String → String) :
    ∀ docs ws ps td,
      collect tpl md2html docs ws ps td =
        ⟨ws ++ (collect tpl md2html docs [] [] td).writes,
         ps ++ (collect tpl md2html docs [] [] td).posts,
         (collect tpl md2html docs [] [] td).tagsDict,
         (collect tpl md2html docs [] [] td).error⟩ := by
  intro docs
  induction docs with
  | nil => intro ws ps td; simp [collect]
  | cons doc rest ih =>
    intro ws ps td
    by_cases hmd : doc.suffix = ".md"
    · simp only [collect, hmd, if_true]
      cases hdate : normalizeDate (mget doc.metadata "date") with
      | error e => simp
      | ok dateObj =>
        simp only []
        conv_rhs => rw [ih]
        rw [ih]
        simp
    · simp only [collect, hmd, if_false]
      exact ih ws ps td

/-- Every file the collection loop writes is a post page under
`posts/`. -/
theorem collect_writes_posts (tpl : String) (md2html : String → String) :
    ∀ docs ws ps td,
      (∀ w ∈ ws, ∃ n, w.path = OutPath.postsFile n) →
      ∀ w ∈ (collect tpl md2html docs ws ps td).writes,
        ∃ n, w.path = OutPath.postsFile n := by
  intro docs
  induction docs with
  | nil => intro ws ps td h; exact h
  | cons doc rest ih =>
    intro ws ps td h
    by_cases hmd : doc.suffix = ".md"
    · simp only [collect, hmd, if_true]
      cases hdate : normalizeDate (mget doc.metadata "date") with
      | error e => exact h
      | ok dateObj =>
        simp only []
        apply ih
        intro w hw
        rcases List.mem_append.mp hw with hw | hw
        · exact h w hw
        · rcases List.mem_singleton.mp hw with rfl
          exact ⟨_, rfl⟩
    · simp only [collect, hmd, if_false]
      exact ih ws ps td h

/-- C1: after collection, `generate_site` sorts the post list by date
in descending order with a stable tie-break: the sorted list is a
permutation of the input, earlier entries have dates at least as late
as later entries, and for every date the posts carrying it appear in
exactly their discovery order (equality of the date-filtered
sublists). -/
theorem sortPosts_stable_descending (l : List PostData) :
    (sortPosts l).Perm l ∧
    (sortPosts l).Pairwise dateDesc ∧
    (∀ d : PDate, (sortPosts l).filter (fun p => decide (p.date = d)) =
      l.filter (fun p => decide (p.date = d))) :=
  ⟨sortPosts_perm l, sortPosts_pairwise l, filter_sortPosts l⟩

theorem bucket_addTag (td : TagsDict) (t' : String) (p : PostData) (t : String) :
    bucket? (addTag td t' p) t =
      if t' = t then some ((bucket? td t).getD [] ++ [p]) else bucket? td t := by
  induction td with
  | nil =>
    simp only [addTag, bucket?]
    by_cases h : t' = t <;> simp [h]
  | cons kv rest ih =>
    obtain ⟨k, ps⟩ := kv
    simp only [addTag]
    by_cases hk : k = t'
    · subst hk
      simp only [if_pos rfl, bucket?]
      by_cases h : k = t
      · subst h; simp
      · simp [h]
    · rw [if_neg hk]
      simp only [bucket?]
      by_cases h : k = t
      · subst h
        have ht : ¬ (t' = k) := fun hh => hk hh.symm
        simp [ht]
      · simp [h, ih]

theorem bucketL_addTag (td : TagsDict) (t' : String) (p : PostData) (t : String) :
    bucketL (addTag td t' p) t =
      bucketL td t ++ (if t' = t then [p] else []) := by
  unfold bucketL
  rw [bucket_addTag]
  by_cases h : t' = t
  · simp [h]
  · simp [h]

theorem isSome_addTag (td : TagsDict) (t' : String) (p : PostData) (t : String) :
    (bucket? (addTag td t' p) t).isSome ↔ (bucket? td t).isSome ∨ t' = t := by
  rw [bucket_addTag]
  by_cases h : t' = t <;> simp [h]

theorem bucketL_addTags (p : PostData) (t : String) :
    ∀ (ts : List String) (td : TagsDict),
      bucketL (addTags td ts p) t = bucketL td t ++ occOf t ts p := by
  intro ts
  induction ts with
  | nil => intro td; simp [addTags, occOf]
  | cons t0 ts ih =>
    intro td
    show bucketL (addTags (addTag td t0 p) ts p) t = _
    rw [ih, bucketL_addTag]
    by_cases h : t0 = t <;> simp [occOf, List.filter_cons, h]

theorem isSome_addTags (p : PostData) (t : String) :
    ∀ (ts : List String) (td : TagsDict),
      (bucket? (addTags td ts p) t).isSome ↔
        (bucket? td t).isSome ∨ t ∈ ts := by
  intro ts
  induction ts with
  | nil => intro td; simp [addTags]
  | cons t0 ts ih =>
    intro td
    show (bucket? (addTags (addTag td t0 p) ts p) t).isSome ↔ _
    rw [ih, isSome_addTag]
    constructor
    · rintro ((h | h) | h)
      · exact Or.inl h
      · exact Or.inr (by simp [h])
      · exact Or.inr (List.mem_cons_of_mem _ h)
    · rintro (h | h)
      · exact Or.inl (Or.inl h)
      · rcases List.mem_cons.mp h with h | h
        · exact Or.inl (Or.inr h.symm)
        · exact Or.inr h

/-- The tag dictionary an error-free collection loop produces:
relative to the starting dictionary, tag `t`'s bucket is extended by
one entry per occurrence of `t` in each processed document's tag list,
in discovery order, and `t` gains a key exactly when some processed
document's tag list contains it. -/
theorem collect_tags (tpl : String) (md2html : String → String) (t : String) :
    ∀ (docs : List Doc) (td : TagsDict) (ws : List Write) (ps : List PostData),
      (collect tpl md2html docs ws ps td).error = none →
      bucketL (collect tpl md2html docs ws ps td).tagsDict t =
          bucketL td t ++ tagOcc t docs ∧
      ((bucket? (collect tpl md2html docs ws ps td).tagsDict t).isSome ↔
        (bucket? td t).isSome ∨ ∃ d ∈ mdDocs docs, t ∈ getTags d.metadata) := by
  intro docs
  induction docs with
  | nil => intro td ws ps _; simp [collect, tagOcc, mdDocs]
  | cons doc rest ih =>
    intro td ws ps herr
    by_cases hmd : doc.suffix = ".md"
    · simp only [collect, hmd, if_true] at herr ⊢
      cases hdate : normalizeDate (mget doc.metadata "date") with
      | error e => rw [hdate] at herr; simp at herr
      | ok dateObj =>
        rw [hdate] at herr
        simp only [] at herr ⊢
        have hpd :
            (⟨getTitle doc.metadata doc.stem, dateObj, getTldr doc.metadata,
              "posts/" ++ (getTitle doc.metadata doc.stem ++ ".html"),
              "../posts/" ++ (getTitle doc.metadata doc.stem ++ ".html")⟩ : PostData) =
            mkPostData doc := by
          unfold mkPostData
          rw [hdate]
        rw [hpd] at herr ⊢
        obtain ⟨ih1, ih2⟩ := ih _ _ _ herr
        constructor
        · rw [ih1, bucketL_addTags]
          have : tagOcc t (doc :: rest) =
              occOf t (getTags doc.metadata) (mkPostData doc) ++ tagOcc t rest := by
            simp [tagOcc, mdDocs, List.filter_cons, hmd]
          rw [this, List.append_assoc]
        · rw [ih2, isSome_addTags]
          have : mdDocs (doc :: rest) = doc :: mdDocs rest := by
            simp [mdDocs, List.filter_cons, hmd]
          rw [this]
          simp only [List.mem_cons]
          constructor
          · rintro ((h | h) | h)
            · exact Or.inl h
            · exact Or.inr ⟨doc, Or.inl rfl, h⟩
            · rcases h with ⟨d, hd, hdt⟩
              exact Or.inr ⟨d, Or.inr hd, hdt⟩
          · rintro (h | ⟨d, hd | hd, hdt⟩)
            · exact Or.inl (Or.inl h)
            · subst hd; exact Or.inl (Or.inr hdt)
            · exact Or.inr ⟨d, hd, hdt⟩
    · simp only [collect, hmd, if_false] at herr ⊢
      have : mdDocs (doc :: rest) = mdDocs rest := by
        simp [mdDocs, List.filter_cons, hmd]
      rw [show tagOcc t (doc :: rest) = tagOcc t rest by simp [tagOcc, this], this]
      exact ih td ws ps herr

theorem occOf_cons (t a : String) (as : List String) (p : PostData) :
    occOf t (a :: as) p =
      if a = t then p :: occOf t as p else occOf t as p := by
  by_cases h : a = t <;> simp [occOf, List.filter_cons, h]

theorem occOf_nodup {ts : List String} (h : ts.Nodup) (t : String) (p : PostData) :
    occOf t ts p = if t ∈ ts then [p] else [] := by
  induction ts with
  | nil => simp [occOf]
  | cons a as ih =>
    rw [List.nodup_cons] at h
    rw [occOf_cons, ih h.2]
    by_cases ha : a = t
    · subst ha
      simp [h.1]
    · have hta : ¬ t = a := fun hh => ha hh.symm
      simp [ha, hta, List.mem_cons]

theorem flatMap_occOf_nodup (t : String) :
    ∀ l : List Doc, (∀ d ∈ l, (getTags d.metadata).Nodup) →
      (l.flatMap fun d => occOf t (getTags d.metadata) (mkPostData d)) =
        (l.filter (fun d => decide (t ∈ getTags d.metadata))).map mkPostData := by
  intro l
  induction l with
  | nil => intro _; simp
  | cons d l ih =>
    intro h
    rw [List.flatMap_cons, List.filter_cons,
      occOf_nodup (h d (List.mem_cons_self d l)) t,
      ih (fun d' hd' => h d' (List.mem_cons_of_mem d hd'))]
    by_cases hd : t ∈ getTags d.metadata <;> simp [hd]

/-- C3 (counterexample): a document whose front-matter tag list is
`[x, x]` produces the bucket `[post, post]` for tag `x`, while only
one post with that tag was discovered — the bucket does not contain
exactly the posts whose tag list includes `x`. -/
theorem tag_index_duplicate_counterexample :
    bucketL (collect "p" (fun s => s)
        [⟨"a", ".md", [("tags", Value.vlist ["x", "x"])], "b"⟩] [] [] []).tagsDict "x" =
      [mkPostData ⟨"a", ".md", [("tags", Value.vlist ["x", "x"])], "b"⟩,
       mkPostData ⟨"a", ".md", [("tags", Value.vlist ["x", "x"])], "b"⟩] ∧
    ((mdDocs [⟨"a", ".md", [("tags", Value.vlist ["x", "x"])], "b"⟩]).filter
        (fun d => decide ("x" ∈ getTags d.metadata))).map mkPostData =
      [mkPostData ⟨"a", ".md", [("tags", Value.vlist ["x", "x"])], "b"⟩] ∧
    bucketL (collect "p" (fun s => s)
        [⟨"a", ".md", [("tags", Value.vlist ["x", "x"])], "b"⟩] [] [] []).tagsDict "x" ≠
      ((mdDocs [⟨"a", ".md", [("tags", Value.vlist ["x", "x"])], "b"⟩]).filter
        (fun d => decide ("x" ∈ getTags d.metadata))).map mkPostData := by
  refine ⟨by decide, by decide, by decide⟩

/-- C3 (amended): in an error-free run, a string `t` is a key of the
tag index iff some processed document's tag list contains `t`; the
bucket for `t` holds, in discovery order, one entry per occurrence of
`t` in each processed document's tag list; and when no document
repeats a tag in its list, the bucket for `t` holds exactly the posts
whose tag list includes `t`, in discovery order. -/
theorem tag_index_characterization (tpl : String) (md2html : String → String)
    (docs : List Doc)
    (h : (collect tpl md2html docs [] [] []).error = none) :
    (∀ t, ((bucket? (collect tpl md2html docs [] [] []).tagsDict t).isSome ↔
        ∃ d ∈ mdDocs docs, t ∈ getTags d.metadata)) ∧
    (∀ t, bucketL (collect tpl md2html docs [] [] []).tagsDict t = tagOcc t docs) ∧
    ((∀ d ∈ mdDocs docs, (getTags d.metadata).Nodup) →
      ∀ t, bucketL (collect tpl md2html docs [] [] []).tagsDict t =
        ((mdDocs docs).filter (fun d => decide (t ∈ getTags d.metadata))).map
          mkPostData) := by
  refine ⟨fun t => ?_, fun t => ?_, fun hnd t => ?_⟩
  · rw [(collect_tags tpl md2html t docs [] [] [] h).2]
    simp [bucket?]
  · rw [(collect_tags tpl md2html t docs [] [] [] h).1]
    simp [bucketL, bucket?]
  · rw [(collect_tags tpl md2html t docs [] [] [] h).1]
    simp only [bucketL, bucket?, Option.getD_none, List.nil_append]
    exact flatMap_occOf_nodup t (mdDocs docs) hnd

/-- Witness for C3 at a concrete two-document run. -/
theorem tag_index_characterization_witness :
    (collect "p" (fun s => s)
        [⟨"a", ".md", [("tags", Value.vlist ["x"])], "b"⟩,
         ⟨"c", ".md", [("tags", Value.vlist ["x", "y"])], "d"⟩] [] [] []).error = none ∧
    bucketL (collect "p" (fun s => s)
        [⟨"a", ".md", [("tags", Value.vlist ["x"])], "b"⟩,
         ⟨"c", ".md", [("tags", Value.vlist ["x", "y"])], "d"⟩] [] [] []).tagsDict "x" =
      tagOcc "x"
        [⟨"a", ".md", [("tags", Value.vlist ["x"])], "b"⟩,
         ⟨"c", ".md", [("tags", Value.vlist ["x", "y"])], "d"⟩] :=
  ⟨by decide,
    (tag_index_characterization "p" (fun s => s)
        [⟨"a", ".md", [("tags", Value.vlist ["x"])], "b"⟩,
         ⟨"c", ".md", [("tags", Value.vlist ["x", "y"])], "d"⟩]
        (by decide)).2.1 "x"⟩

/-- C4: date normalization parses a string value as an ISO date, keeps
a native date value as-is, and substitutes the sentinel `date(1900,1,1)`
for an absent key or any other shape; in the descending sort a
sentinel-dated post comes after every post with a later date. -/
theorem normalize_date_and_sentinel_order :
    (∀ (s : String) (d : PDate), fromisoformat s = some d →
      normalizeDate (some (Value.vstr s)) = Except.ok d) ∧
    (∀ d : PDate, normalizeDate (some (Value.vdate d)) = Except.ok d) ∧
    normalizeDate none = Except.ok PDate.sentinel ∧
    (∀ v : Value, (∀ s, v ≠ Value.vstr s) → (∀ d, v ≠ Value.vdate d) →
      normalizeDate (some v) = Except.ok PDate.sentinel) ∧
    PDate.sentinel = ⟨1900, 1, 1⟩ ∧
    (∀ (l : List PostData) (i j : Nat) (hi : i < (sortPosts l).length)
        (hj : j < (sortPosts l).length),
      ((sortPosts l).get ⟨i, hi⟩).date = PDate.sentinel →
      PDate.lt PDate.sentinel ((sortPosts l).get ⟨j, hj⟩).date →
      j < i) := by
  refine ⟨?_, ?_, rfl, ?_, rfl, ?_⟩
  · intro s d h
    simp only [normalizeDate]
    rw [h]
  · intro d; rfl
  · intro v hs hd
    cases v with
    | vstr s => exact absurd rfl (hs s)
    | vdate d => exact absurd rfl (hd d)
    | vlist l => rfl
    | vother => rfl
  · intro l i j hi hj hsent hlt
    by_contra hc
    push_neg at hc
    rcases Nat.lt_or_ge i j with hij | hij
    · have hp := List.pairwise_iff_get.mp (sortPosts_pairwise l) ⟨i, hi⟩ ⟨j, hj⟩ hij
      have hp2 : PDate.le ((sortPosts l).get ⟨j, hj⟩).date
          ((sortPosts l).get ⟨i, hi⟩).date := hp
      rw [hsent] at hp2
      exact PDate.not_lt_of_le hp2 hlt
    · have : i = j := Nat.le_antisymm hc hij
      subst this
      rw [hsent] at hlt
      exact PDate.not_lt_of_le (PDate.le_refl _) hlt

/-- Witness for C4: a parsed string date, and a two-post run where the
sentinel-dated post (discovered first) lands after the dated post. -/
theorem normalize_date_and_sentinel_order_witness :
    fromisoformat "2024-06-01" = some ⟨2024, 6, 1⟩ ∧
    normalizeDate (some (Value.vstr "2024-06-01")) = Except.ok ⟨2024, 6, 1⟩ ∧
    ((sortPosts [⟨"u", PDate.sentinel, "", "f", "g"⟩,
        ⟨"v", ⟨2024, 6, 1⟩, "", "f", "g"⟩]).get ⟨1, by decide⟩).date = PDate.sentinel ∧
    PDate.lt PDate.sentinel
      ((sortPosts [⟨"u", PDate.sentinel, "", "f", "g"⟩,
        ⟨"v", ⟨2024, 6, 1⟩, "", "f", "g"⟩]).get ⟨0, by decide⟩).date ∧
    (0 : Nat) < 1 :=
  ⟨by decide,
    normalize_date_and_sentinel_order.1 "2024-06-01" ⟨2024, 6, 1⟩ (by decide),
    by decide, by decide,
    normalize_date_and_sentinel_order.2.2.2.2.2
      [⟨"u", PDate.sentinel, "", "f", "g"⟩, ⟨"v", ⟨2024, 6, 1⟩, "", "f", "g"⟩]
      1 0 (by decide) (by decide) (by decide) (by decide)⟩

/-- C5: the per-post page goes to `posts/<title>.html`, but the
`date=date` keyword argument at mdnet.py line 46 passes the imported
`datetime.date` class object, not the document's normalized
`date_obj`: at a document dated 2024-01-02 the recorded binding is the
class, which differs from the normalized date value. -/
theorem post_page_date_binding_bug :
    (collect "p" (fun s => s)
        [⟨"a", ".md", [("date", Value.vstr "2024-01-02")], "body"⟩] [] [] []).writes =
      [⟨OutPath.postsFile "a.html", "p",
        Bindings.postPage "a" DateArg.dateClass "body"⟩] ∧
    (collect "p" (fun s => s)
        [⟨"a", ".md", [("date", Value.vstr "2024-01-02")], "body"⟩] [] [] []).posts =
      [⟨"a", ⟨2024, 1, 2⟩, "", "posts/a.html", "../posts/a.html"⟩] ∧
    DateArg.dateClass ≠ DateArg.dateValue ⟨2024, 1, 2⟩ :=
  ⟨by decide, by decide, by decide⟩

/-- C6 (counterexample): a present-but-empty `title` is used verbatim:
with metadata `title: ""` and filename stem `mypost`, the normalized
title is the empty string, not the stem the claim requires. -/
theorem title_empty_counterexample :
    getTitle [("title", Value.vstr "")] "mypost" = "" ∧
    ("" : String) ≠ "mypost" :=
  ⟨rfl, by decide⟩

/-- C6 (amended): the normalized title equals the raw title value
whenever the `title` key is present with a string value — including the
empty string — and the filename stem when the key is absent. -/
theorem title_resolution (m : Meta) (stem : String) :
    (mget m "title" = none → getTitle m stem = stem) ∧
    (∀ s, mget m "title" = some (Value.vstr s) → getTitle m stem = s) := by
  constructor
  · intro h; unfold getTitle; rw [h]
  · intro s h; unfold getTitle; rw [h]

/-- Witness for C6 at a present title and at an absent one. -/
theorem title_resolution_witness :
    mget [("title", Value.vstr "Alpha")] "title" = some (Value.vstr "Alpha") ∧
    getTitle [("title", Value.vstr "Alpha")] "stem" = "Alpha" ∧
    mget [("tldr", Value.vstr "x")] "title" = none ∧
    getTitle [("tldr", Value.vstr "x")] "stem" = "stem" :=
  ⟨by decide,
    (title_resolution [("title", Value.vstr "Alpha")] "stem").2 "Alpha" (by decide),
    by decide,
    (title_resolution [("tldr", Value.vstr "x")] "stem").1 (by decide)⟩

theorem collect_writes_posts_nil (tpl : String) (md2html : String → String)
    (docs : List Doc) :
    ∀ w ∈ (collect tpl md2html docs [] [] []).writes,
      ∃ n, w.path = OutPath.postsFile n :=
  collect_writes_posts tpl md2html docs [] [] []
    (by intro w hw; exact absurd hw (List.not_mem_nil w))

theorem tagPageWrites_path (tt : String) (td : TagsDict) (w : Write)
    (hw : w ∈ tagPageWrites tt td) : ∃ n, w.path = OutPath.tagsFile n := by
  unfold tagPageWrites at hw
  rcases List.mem_map.mp hw with ⟨kv, _, rfl⟩
  exact ⟨kv.1 ++ ".html", rfl⟩

theorem finishRun_writes_mem (cfg : Config) (ws : List Write)
    (sorted : List PostData) (td : TagsDict) (w : Write)
    (hw : w ∈ (finishRun cfg ws sorted td).writes) :
    w ∈ ws ∨ w.path = OutPath.indexFile ∨ w.path = OutPath.allPostsFile := by
  unfold finishRun at hw
  cases h : cfg.allPostsTemplate with
  | some apt =>
    rw [h] at hw
    simp only [List.mem_append, List.mem_cons, List.mem_singleton] at hw
    rcases hw with hw | hw | hw | hw
    · exact Or.inl hw
    · subst hw; exact Or.inr (Or.inl rfl)
    · subst hw; exact Or.inr (Or.inr rfl)
    · exact absurd hw (List.not_mem_nil w)
  | none =>
    rw [h] at hw
    simp only [List.mem_append, List.mem_cons] at hw
    rcases hw with hw | hw | hw
    · exact Or.inl hw
    · subst hw; exact Or.inr (Or.inl rfl)
    · exact absurd hw (List.not_mem_nil w)

theorem finishRun_spec (cfg : Config) (ws : List Write)
    (sorted : List PostData) (td : TagsDict) :
    (∀ apt, cfg.allPostsTemplate = some apt →
      finishRun cfg ws sorted td =
        ⟨ws ++
          [⟨OutPath.indexFile, cfg.indexTemplate,
            Bindings.indexPage (pySlice cfg.numPosts sorted) td⟩,
           ⟨OutPath.allPostsFile, apt, Bindings.allPostsPage sorted⟩], none⟩) ∧
    (cfg.allPostsTemplate = none →
      finishRun cfg ws sorted td =
        ⟨ws ++
          [⟨OutPath.indexFile, cfg.indexTemplate,
            Bindings.indexPage (pySlice cfg.numPosts sorted) td⟩],
         some GenError.missingTemplate⟩) := by
  constructor
  · intro apt h; unfold finishRun; rw [h]
  · intro h; unfold finishRun; rw [h]

/-- When collection succeeds and the tag configuration does not abort
the run (no tag template, or both tag and all-tags templates present),
the run reaches the index/all-posts steps: it is `finishRun` applied
after some prefix of writes, none of which is the index or all-posts
page. -/
theorem generateSite_eq_finishRun (cfg : Config) (md2html : String → String)
    (docs : List Doc)
    (hcol : (collect cfg.postTemplate md2html docs [] [] []).error = none)
    (hcfg : cfg.tagTemplate = none ∨ cfg.allTagsTemplate ≠ none) :
    ∃ pre : List Write,
      (∀ w ∈ pre, w.path ≠ OutPath.allPostsFile ∧ w.path ≠ OutPath.indexFile) ∧
      generateSite cfg md2html docs =
        finishRun cfg pre
          (sortPosts (collect cfg.postTemplate md2html docs [] [] []).posts)
          (collect cfg.postTemplate md2html docs [] [] []).tagsDict := by
  have hcw := collect_writes_posts_nil cfg.postTemplate md2html docs
  unfold generateSite
  cases hst : collect cfg.postTemplate md2html docs [] [] [] with
  | mk cws cps ctd cerr =>
    rw [hst] at hcol hcw
    simp only [] at hcol hcw ⊢
    subst hcol
    cases htt : cfg.tagTemplate with
    | none =>
      refine ⟨cws, ?_, rfl⟩
      intro w hw
      rcases hcw w hw with ⟨n, hn⟩
      rw [hn]
      exact ⟨fun hc => OutPath.noConfusion hc, fun hc => OutPath.noConfusion hc⟩
    | some tt =>
      cases hat : cfg.allTagsTemplate with
      | none => rcases hcfg with hcfg | hcfg
                · exact absurd htt (by rw [hcfg]; intro hc; exact Option.noConfusion hc)
                · exact absurd hat hcfg
      | some att =>
        refine ⟨cws ++ tagPageWrites tt ctd ++
          [⟨OutPath.allTagsFile, att, Bindings.allTagsPage ctd⟩], ?_, rfl⟩
        intro w hw
        rcases List.mem_append.mp hw with hw | hw
        · rcases List.mem_append.mp hw with hw | hw
          · rcases hcw w hw with ⟨n, hn⟩
            rw [hn]
            exact ⟨fun hc => OutPath.noConfusion hc, fun hc => OutPath.noConfusion hc⟩
          · rcases tagPageWrites_path tt ctd w hw with ⟨n, hn⟩
            rw [hn]
            exact ⟨fun hc => OutPath.noConfusion hc, fun hc => OutPath.noConfusion hc⟩
        · rcases List.mem_singleton.mp hw with rfl
          exact ⟨fun hc => OutPath.noConfusion hc, fun hc => OutPath.noConfusion hc⟩

/-- C7: when no tag-page template is configured, the run writes no
`tags/<tag>.html` file and no `all_tags.html` file — both are
suppressed by the single tag-template check (mdnet.py line 66),
whatever the all-tags template setting is. -/
theorem no_tag_template_suppresses_tag_pages (cfg : Config)
    (md2html : String → String) (docs : List Doc)
    (h : cfg.tagTemplate = none) :
    ∀ w ∈ (generateSite cfg md2html docs).writes,
      (∀ n, w.path ≠ OutPath.tagsFile n) ∧ w.path ≠ OutPath.allTagsFile := by
  intro w hw
  have hcw := collect_writes_posts_nil cfg.postTemplate md2html docs
  unfold generateSite at hw
  cases hst : collect cfg.postTemplate md2html docs [] [] [] with
  | mk cws cps ctd cerr =>
    rw [hst] at hw hcw
    simp only [] at hcw
    cases cerr with
    | some e =>
      simp only [] at hw
      rcases hcw w hw with ⟨n, hn⟩
      rw [hn]
      exact ⟨fun n' hc => OutPath.noConfusion hc, fun hc => OutPath.noConfusion hc⟩
    | none =>
      rw [h] at hw
      simp only [] at hw
      rcases finishRun_writes_mem cfg cws (sortPosts cps) ctd w hw with hw | hw | hw
      · rcases hcw w hw with ⟨n, hn⟩
        rw [hn]
        exact ⟨fun n' hc => OutPath.noConfusion hc, fun hc => OutPath.noConfusion hc⟩
      · rw [hw]
        exact ⟨fun n' hc => OutPath.noConfusion hc, fun hc => OutPath.noConfusion hc⟩
      · rw [hw]
        exact ⟨fun n' hc => OutPath.noConfusion hc, fun hc => OutPath.noConfusion hc⟩

/-- Witness for C7: a concrete run with a tag-carrying post and no tag
template writes neither a tag page nor the all-tags page. -/
theorem no_tag_template_suppresses_tag_pages_witness :
    (⟨OutPath.postsFile "a.html", "p",
        Bindings.postPage "a" DateArg.dateClass "b"⟩ : Write) ∈
      (generateSite ⟨"p", "i", none, some "at", some "ap", 8⟩ (fun s => s)
        [⟨"a", ".md", [("tags", Value.vlist ["x"])], "b"⟩]).writes ∧
    ((∀ n, (⟨OutPath.postsFile "a.html", "p",
        Bindings.postPage "a" DateArg.dateClass "b"⟩ : Write).path ≠
          OutPath.tagsFile n) ∧
      (⟨OutPath.postsFile "a.html", "p",
        Bindings.postPage "a" DateArg.dateClass "b"⟩ : Write).path ≠
          OutPath.allTagsFile) :=
  ⟨by decide,
    no_tag_template_suppresses_tag_pages ⟨"p", "i", none, some "at", some "ap", 8⟩
      (fun s => s) [⟨"a", ".md", [("tags", Value.vlist ["x"])], "b"⟩] rfl
      _ (by decide)⟩

/-- C10: with a tag template configured but no all-tags template, the
run writes every per-tag page, then attempts the all-tags render with
the absent template and aborts: the result carries a missing-template
error, its writes are exactly the post pages followed by all per-tag
pages, and neither the all-tags page nor the index or all-posts pages
are written. -/
theorem tag_template_requires_alltags (cfg : Config)
    (md2html : String → String) (docs : List Doc) (tt : String)
    (hcol : (collect cfg.postTemplate md2html docs [] [] []).error = none)
    (htt : cfg.tagTemplate = some tt)
    (hat : cfg.allTagsTemplate = none) :
    (generateSite cfg md2html docs).error = some GenError.missingTemplate ∧
    (generateSite cfg md2html docs).writes =
      (collect cfg.postTemplate md2html docs [] [] []).writes ++
        tagPageWrites tt (collect cfg.postTemplate md2html docs [] [] []).tagsDict ∧
    (∀ kv ∈ (collect cfg.postTemplate md2html docs [] [] []).tagsDict,
      (⟨OutPath.tagsFile (kv.1 ++ ".html"), tt,
        Bindings.tagPage kv.2 kv.1⟩ : Write) ∈
          (generateSite cfg md2html docs).writes) ∧
    ∀ w ∈ (generateSite cfg md2html docs).writes,
      w.path ≠ OutPath.allTagsFile ∧ w.path ≠ OutPath.indexFile ∧
        w.path ≠ OutPath.allPostsFile := by
  have hcw := collect_writes_posts_nil cfg.postTemplate md2html docs
  unfold generateSite
  cases hst : collect cfg.postTemplate md2html docs [] [] [] with
  | mk cws cps ctd cerr =>
    rw [hst] at hcol hcw
    simp only [] at hcol hcw ⊢
    subst hcol
    rw [htt, hat]
    refine ⟨rfl, rfl, ?_, ?_⟩
    · intro kv hkv
      exact List.mem_append_right cws
        (List.mem_map.mpr ⟨kv, hkv, rfl⟩)
    · intro w hw
      rcases List.mem_append.mp hw with hw | hw
      · rcases hcw w hw with ⟨n, hn⟩
        rw [hn]
        exact ⟨fun hc => OutPath.noConfusion hc, fun hc => OutPath.noConfusion hc,
          fun hc => OutPath.noConfusion hc⟩
      · rcases tagPageWrites_path tt ctd w hw with ⟨n, hn⟩
        rw [hn]
        exact ⟨fun hc => OutPath.noConfusion hc, fun hc => OutPath.noConfusion hc,
          fun hc => OutPath.noConfusion hc⟩

/-- Witness for C10 at a one-post, one-tag run. -/
theorem tag_template_requires_alltags_witness :
    (collect "p" (fun s => s)
        [⟨"a", ".md", [("tags", Value.vlist ["x"])], "b"⟩] [] [] []).error = none ∧
    (generateSite ⟨"p", "i", some "t", none, some "ap", 8⟩ (fun s => s)
        [⟨"a", ".md", [("tags", Value.vlist ["x"])], "b"⟩]).error =
      some GenError.missingTemplate :=
  ⟨by decide,
    (tag_template_requires_alltags ⟨"p", "i", some "t", none, some "ap", 8⟩
      (fun s => s) [⟨"a", ".md", [("tags", Value.vlist ["x"])], "b"⟩] "t"
      (by decide) rfl rfl).1⟩

/-- C9: once the run reaches its final step, the all-posts render is
attempted unconditionally: with an all-posts template configured the
run succeeds and its last write is `all_posts.html` rendered from the
full sorted post list; with none configured the run errors with a
missing template after writing the index page, instead of skipping the
step. -/
theorem all_posts_render_unconditional (cfg : Config)
    (md2html : String → String) (docs : List Doc)
    (hcol : (collect cfg.postTemplate md2html docs [] [] []).error = none)
    (hcfg : cfg.tagTemplate = none ∨ cfg.allTagsTemplate ≠ none) :
    (∀ apt, cfg.allPostsTemplate = some apt →
      (generateSite cfg md2html docs).error = none ∧
      (generateSite cfg md2html docs).writes.getLast? =
        some ⟨OutPath.allPostsFile, apt,
          Bindings.allPostsPage
            (sortPosts (collect cfg.postTemplate md2html docs [] [] []).posts)⟩) ∧
    (cfg.allPostsTemplate = none →
      (generateSite cfg md2html docs).error = some GenError.missingTemplate ∧
      (∀ w ∈ (generateSite cfg md2html docs).writes,
        w.path ≠ OutPath.allPostsFile) ∧
      (∃ w ∈ (generateSite cfg md2html docs).writes,
        w.path = OutPath.indexFile)) := by
  rcases generateSite_eq_finishRun cfg md2html docs hcol hcfg with ⟨pre, hpre, heq⟩
  constructor
  · intro apt hap
    rw [heq, ((finishRun_spec cfg pre _ _).1 apt hap)]
    have hlast : ∀ (a b : Write) (l : List Write),
        (l ++ [a, b]).getLast? = some b := by
      intro a b l
      rw [show (l ++ [a, b]) = (l ++ [a]) ++ [b] by simp, List.getLast?_concat]
    exact ⟨rfl, hlast _ _ pre⟩
  · intro hap
    rw [heq, ((finishRun_spec cfg pre _ _).2 hap)]
    refine ⟨rfl, ?_, ?_⟩
    · intro w hw
      rcases List.mem_append.mp hw with hw | hw
      · exact (hpre w hw).1
      · rcases List.mem_singleton.mp hw with rfl
        exact fun hc => OutPath.noConfusion hc
    · exact ⟨_, List.mem_append_right pre (List.mem_singleton.mpr rfl), rfl⟩

/-- Witness for C9: a run with an all-posts template ends with the
all-posts write; the same run without one errors. -/
theorem all_posts_render_unconditional_witness :
    (collect "p" (fun s => s) [⟨"a", ".md", [], "b"⟩] [] [] []).error = none ∧
    (generateSite ⟨"p", "i", none, none, some "ap", 8⟩ (fun s => s)
        [⟨"a", ".md", [], "b"⟩]).error = none ∧
    (generateSite ⟨"p", "i", none, none, none, 8⟩ (fun s => s)
        [⟨"a", ".md", [], "b"⟩]).error = some GenError.missingTemplate :=
  ⟨by decide,
    ((all_posts_render_unconditional ⟨"p", "i", none, none, some "ap", 8⟩
      (fun s => s) [⟨"a", ".md", [], "b"⟩] (by decide) (Or.inl rfl)).1
      "ap" rfl).1,
    ((all_posts_render_unconditional ⟨"p", "i", none, none, none, 8⟩
      (fun s => s) [⟨"a", ".md", [], "b"⟩] (by decide) (Or.inl rfl)).2
      rfl).1⟩

theorem pySlice_nonneg {n : Int} (h : 0 ≤ n) (l : List PostData) :
    pySlice n l = l.take n.toNat := by
  unfold pySlice; rw [if_pos h]

/-- C2 (counterexample): with `num_posts = -1` over one post, Python
slicing renders the index with 0 entries while `min(num_posts, P)`
is `-1`: the claimed count is wrong for negative `num_posts`. -/
theorem index_slice_counterexample :
    (∃ w ∈ (generateSite ⟨"p", "i", none, none, some "ap", -1⟩ (fun s => s)
        [⟨"a", ".md", [], "b"⟩]).writes,
      w.path = OutPath.indexFile ∧
      w.bindings = Bindings.indexPage [] []) ∧
    (mdDocs [⟨"a", ".md", [], "b"⟩]).length = 1 ∧
    min (-1 : Int) 1 = -1 ∧
    (([] : List PostData).length : Int) = 0 ∧
    (-1 : Int) ≠ 0 :=
  ⟨by decide, by decide, by decide, by decide, by decide⟩

/-- C2 (amended): for every run that reaches the index step and every
non-negative `num_posts`, the index page is rendered from the index
template with exactly `min(num_posts, P)` post entries — the first
`num_posts` posts of the date-descending sorted list — and those
entries are in descending-date order. -/
theorem index_latest_slice (cfg : Config) (md2html : String → String)
    (docs : List Doc)
    (hcol : (collect cfg.postTemplate md2html docs [] [] []).error = none)
    (hcfg : cfg.tagTemplate = none ∨ cfg.allTagsTemplate ≠ none)
    (hn : 0 ≤ cfg.numPosts) :
    (∃ w ∈ (generateSite cfg md2html docs).writes,
      w.path = OutPath.indexFile ∧ w.template = cfg.indexTemplate ∧
      w.bindings = Bindings.indexPage
        ((sortPosts (collect cfg.postTemplate md2html docs [] [] []).posts).take
          cfg.numPosts.toNat)
        (collect cfg.postTemplate md2html docs [] [] []).tagsDict) ∧
    ((sortPosts (collect cfg.postTemplate md2html docs [] [] []).posts).take
        cfg.numPosts.toNat).length =
      min cfg.numPosts.toNat
        (collect cfg.postTemplate md2html docs [] [] []).posts.length ∧
    ((sortPosts (collect cfg.postTemplate md2html docs [] [] []).posts).take
        cfg.numPosts.toNat).Pairwise dateDesc := by
  rcases generateSite_eq_finishRun cfg md2html docs hcol hcfg with ⟨pre, hpre, heq⟩
  refine ⟨?_, ?_, ?_⟩
  · rw [heq]
    cases hap : cfg.allPostsTemplate with
    | some apt =>
      rw [(finishRun_spec cfg pre _ _).1 apt hap]
      refine ⟨_, List.mem_append_right pre (List.mem_cons_self _ _), rfl, rfl, ?_⟩
      rw [pySlice_nonneg hn]
    | none =>
      rw [(finishRun_spec cfg pre _ _).2 hap]
      refine ⟨_, List.mem_append_right pre (List.mem_cons_self _ _), rfl, rfl, ?_⟩
      rw [pySlice_nonneg hn]
  · rw [List.length_take, (sortPosts_perm _).length_eq]
  · exact List.Pairwise.sublist (List.take_sublist _ _) (sortPosts_pairwise _)

/-- Witness for C2 at a two-post run with `num_posts = 1`. -/
theorem index_latest_slice_witness :
    (collect "p" (fun s => s)
        [⟨"a", ".md", [("date", Value.vstr "2024-01-01")], "b"⟩,
         ⟨"c", ".md", [("date", Value.vstr "2024-06-01")], "d"⟩] [] [] []).error =
      none ∧
    (0 : Int) ≤ 1 ∧
    ((sortPosts (collect "p" (fun s => s)
        [⟨"a", ".md", [("date", Value.vstr "2024-01-01")], "b"⟩,
         ⟨"c", ".md", [("date", Value.vstr "2024-06-01")], "d"⟩] [] [] []).posts).take
        (1 : Int).toNat).length =
      min (1 : Int).toNat
        (collect "p" (fun s => s)
          [⟨"a", ".md", [("date", Value.vstr "2024-01-01")], "b"⟩,
           ⟨"c", ".md", [("date", Value.vstr "2024-06-01")], "d"⟩] [] [] []).posts.length :=
  ⟨by decide, by decide,
    (index_latest_slice ⟨"p", "i", none, none, some "ap", 1⟩ (fun s => s)
      [⟨"a", ".md", [("date", Value.vstr "2024-01-01")], "b"⟩,
       ⟨"c", ".md", [("date", Value.vstr "2024-06-01")], "d"⟩]
      (by decide) (Or.inl rfl) (by decide)).2.1⟩

/-- C8: a document whose raw date is a string that is not a valid ISO
date aborts the whole run with the malformed-date error: the run's
writes are exactly the post pages of the documents before it — no
later document is processed, and no aggregate page is written. -/
theorem malformed_date_aborts_run (cfg : Config) (md2html : String → String)
    (pre rest : List Doc) (bad : Doc) (s : String)
    (hpre : (collect cfg.postTemplate md2html pre [] [] []).error = none)
    (hmd : bad.suffix = ".md")
    (hdate : mget bad.metadata "date" = some (Value.vstr s))
    (hbad : fromisoformat s = none) :
    (generateSite cfg md2html (pre ++ bad :: rest)).error =
      some GenError.malformedDate ∧
    (generateSite cfg md2html (pre ++ bad :: rest)).writes =
      (collect cfg.postTemplate md2html pre [] [] []).writes ∧
    ∀ w ∈ (generateSite cfg md2html (pre ++ bad :: rest)).writes,
      ∃ n, w.path = OutPath.postsFile n := by
  have hnd : normalizeDate (mget bad.metadata "date") =
      Except.error GenError.malformedDate := by
    rw [hdate]; simp only [normalizeDate]; rw [hbad]
  have hstep : collect cfg.postTemplate md2html (pre ++ bad :: rest) [] [] [] =
      ⟨(collect cfg.postTemplate md2html pre [] [] []).writes,
       (collect cfg.postTemplate md2html pre [] [] []).posts,
       (collect cfg.postTemplate md2html pre [] [] []).tagsDict,
       some GenError.malformedDate⟩ := by
    rw [collect_append, hpre]
    simp only [collect, hmd, if_true]
    rw [hnd]
  have hgen : generateSite cfg md2html (pre ++ bad :: rest) =
      ⟨(collect cfg.postTemplate md2html pre [] [] []).writes,
       some GenError.malformedDate⟩ := by
    unfold generateSite
    rw [hstep]
  refine ⟨by rw [hgen], by rw [hgen], ?_⟩
  rw [hgen]
  exact collect_writes_posts_nil cfg.postTemplate md2html pre

/-- Witness for C8: one good post, then a post dated `not-a-date`,
then another post; the run aborts with the malformed-date error. -/
theorem malformed_date_aborts_run_witness :
    (collect "p" (fun s => s)
        [⟨"a", ".md", [("date", Value.vstr "2024-01-02")], "b"⟩] [] [] []).error =
      none ∧
    fromisoformat "not-a-date" = none ∧
    (generateSite ⟨"p", "i", none, none, some "ap", 8⟩ (fun s => s)
        ([⟨"a", ".md", [("date", Value.vstr "2024-01-02")], "b"⟩] ++
          ⟨"c", ".md", [("date", Value.vstr "not-a-date")], "d"⟩ ::
            [⟨"e", ".md", [], "f"⟩])).error = some GenError.malformedDate :=
  ⟨by decide, by decide,
    (malformed_date_aborts_run ⟨"p", "i", none, none, some "ap", 8⟩ (fun s => s)
      [⟨"a", ".md", [("date", Value.vstr "2024-01-02")], "b"⟩]
      [⟨"e", ".md", [], "f"⟩]
      ⟨"c", ".md", [("date", Value.vstr "not-a-date")], "d"⟩ "not-a-date"
      (by decide) rfl (by decide) (by decide)).1⟩

end Mdnet
